import Mathlib

/-!
Verification development for the task-queue and retry-orchestration engine
of src/backend/app/utils/queue_manager.py.

The Python module is embedded shallowly:

* `QueueTask` mirrors the dataclass of the same name.  The opaque callable
  together with its stored positional and keyword arguments is modelled as a
  function from the attempt index (the number of previously failed attempts
  of this task) to an outcome: `Except.ok v` stands for a normal return of
  value `v`, `Except.error msg` stands for a raised exception whose
  `str(e)` is `msg`.  Result values are drawn from `Nat`; the queue treats
  them opaquely.
* The task table `self.tasks` keys tasks by a process-unique identifier
  (`uuid.uuid4()` in the source).  Identifiers are modelled as the natural
  numbers `0, 1, 2, ...` in order of allocation, so the table is a
  `List QueueTask` whose index is the identifier, and the asyncio FIFO
  `self._queue` is a `List Nat` of identifiers (the Python queue holds the
  very task objects that the table holds; since the table is never evicted,
  holding the identifier is equivalent).
* The single worker coroutine (`_process_queue` / `_execute_task`) is a
  small-step machine.  One step runs the code between two suspension points
  (`await self._queue.get()`, `await task.func(...)`,
  `await asyncio.sleep(...)`); everything between suspension points is
  atomic under the cooperative single-threaded scheduler.  `WorkerPhase`
  records where in `_execute_task` the coroutine is suspended.
* `datetime.now()` is a logical clock `clock : Nat`; the only modelled
  passage of time is the retry sleep, which advances the clock by exactly
  `retry_delay`.
* External interleaving (submissions, lifecycle calls, and the
  `except Exception` branch of `_process_queue` that logs an internal
  error and continues the loop) is an `Event`; `Reachable` closes the
  initial manager state under arbitrary event sequences.
-/

/-- The five members of the Python enum `TaskStatus`. -/
inductive TaskStatus where
  | pending
  | running
  | completed
  | failed
  | retrying
deriving DecidableEq, Repr

/-- The `.value` string of each `TaskStatus` member, as in the source enum. -/
def TaskStatus.value : TaskStatus → String
  | .pending => "pending"
  | .running => "running"
  | .completed => "completed"
  | .failed => "failed"
  | .retrying => "retrying"

/-- The dataclass `QueueTask`.  Field defaults follow the source:
status PENDING, retry_count 0, max_retries 3, retry_delay 20 seconds,
result / error / timestamps unset. -/
structure QueueTask where
  id : Nat
  name : String
  func : Nat → Except String Nat
  status : TaskStatus := .pending
  retry_count : Nat := 0
  max_retries : Nat := 3
  retry_delay : Nat := 20
  result : Option Nat := none
  error : Option String := none
  created_at : Option Nat := none
  started_at : Option Nat := none
  completed_at : Option Nat := none

/-- Where the worker coroutine is currently suspended: `idle` at the top of
the `while self.running` loop awaiting `self._queue.get()`; `runBody tid`
inside `_execute_task` awaiting the callable of task `tid` (the task has
already been marked RUNNING); `sleeping tid` inside the
`await asyncio.sleep(task.retry_delay)` of the retry branch for task `tid`
(the task has already been marked RETRYING, and will be re-enqueued when
the sleep returns). -/
inductive WorkerPhase where
  | idle
  | runBody (tid : Nat)
  | sleeping (tid : Nat)
deriving DecidableEq, Repr

/-- The mutable state of the `QueueManager` instance: the task table
`self.tasks`, the FIFO `self._queue`, the `self.running` flag, the number
of live worker coroutines spawned by `asyncio.create_task` and not yet
cancelled (`workerCount`), the worker's suspension point, and the logical
clock. -/
structure ManagerState where
  tasks : List QueueTask := []
  fifo : List Nat := []
  running : Bool := false
  workerCount : Nat := 0
  phase : WorkerPhase := .idle
  clock : Nat := 0

/-- The state of a freshly constructed `QueueManager()`. -/
def initState : ManagerState := {}

namespace QueueManager

/-- `QueueManager.start`: if not already running, set the running flag and
spawn the worker coroutine; otherwise do nothing. -/
def start (s : ManagerState) : ManagerState :=
  if s.running then s
  else { s with running := true, workerCount := s.workerCount + 1 }

/-- `QueueManager.stop`: clear the running flag and cancel the worker
coroutine (so no worker remains and any suspended execution is abandoned;
a task caught mid-execution keeps whatever status it had). -/
def stop (s : ManagerState) : ManagerState :=
  { s with running := false, workerCount := 0, phase := .idle }

/-- `QueueManager.add_task`: allocate a fresh identifier, build a PENDING
`QueueTask`, insert it into the table, push it onto the FIFO, and return
the identifier.  (The source pushes via `asyncio.create_task(put(task))`;
puts are linearized by the queue, modelled as an immediate tail append.) -/
def add_task (s : ManagerState) (name : String) (func : Nat → Except String Nat)
    (max_retries : Nat) (retry_delay : Nat) : ManagerState × Nat :=
  let task_id := s.tasks.length
  let task : QueueTask :=
    { id := task_id
      name := name
      func := func
      status := .pending
      retry_count := 0
      max_retries := max_retries
      retry_delay := retry_delay
      result := none
      error := none
      created_at := some s.clock
      started_at := none
      completed_at := none }
  ({ s with tasks := s.tasks ++ [task], fifo := s.fifo ++ [task_id] }, task_id)

/-- `QueueManager._calculate_progress`, translated clause by clause from the
source's if/elif chain (float arithmetic modelled over the rationals). -/
def _calculate_progress (task : QueueTask) : ℚ :=
  if task.status = .completed then 100
  else if task.status = .failed then 0
  else if task.status = .retrying then
    50 + ((task.retry_count : ℚ) / (task.max_retries : ℚ)) * 30
  else if task.status = .running then 50
  else if task.status = .pending then 0
  else 0

/-- The dictionary returned by `QueueManager.get_task_status` for a known
task (timestamps kept as logical instants rather than ISO strings). -/
structure TaskSnapshot where
  id : Nat
  name : String
  status : String
  retry_count : Nat
  max_retries : Nat
  progress : ℚ
  created_at : Option Nat
  started_at : Option Nat
  completed_at : Option Nat
  error : Option String
deriving DecidableEq, Repr

/-- The projection from a task record to its status dictionary, field for
field as built in `get_task_status`. -/
def snapshotOf (task : QueueTask) : TaskSnapshot :=
  { id := task.id
    name := task.name
    status := task.status.value
    retry_count := task.retry_count
    max_retries := task.max_retries
    progress := _calculate_progress task
    created_at := task.created_at
    started_at := task.started_at
    completed_at := task.completed_at
    error := task.error }

/-- `QueueManager.get_task_status`: `self.tasks.get(task_id)`; `None` when
the identifier is unknown, otherwise the status dictionary.  A pure read:
it takes the state and returns only the optional snapshot. -/
def get_task_status (s : ManagerState) (task_id : Nat) : Option TaskSnapshot :=
  (s.tasks[task_id]?).map snapshotOf

/-- `QueueManager.get_all_tasks`: one snapshot per known identifier. -/
def get_all_tasks (s : ManagerState) : List TaskSnapshot :=
  s.tasks.map snapshotOf

end QueueManager

/-- Lines 153-154 of the source: mark the task RUNNING and overwrite
`started_at`. -/
def markRunning (t : QueueTask) (clock : Nat) : QueueTask :=
  { t with status := TaskStatus.running, started_at := some clock }

/-- Lines 160-165 of the source: store the callable's return value, mark
COMPLETED, set `completed_at`. -/
def markCompleted (t : QueueTask) (v : Nat) (clock : Nat) : QueueTask :=
  { t with result := some v, status := TaskStatus.completed,
           completed_at := some clock }

/-- Lines 170-176 of the source, retry branch: record `str(e)`, increment
`retry_count`, mark RETRYING.  (`error` is assigned and never cleared by a
later successful attempt.) -/
def markRetrying (t : QueueTask) (msg : String) : QueueTask :=
  { t with error := some msg, retry_count := t.retry_count + 1,
           status := TaskStatus.retrying }

/-- Lines 170-172 and 184-186 of the source, exhausted branch: record
`str(e)`, increment `retry_count`, mark FAILED, set `completed_at`. -/
def markFailed (t : QueueTask) (msg : String) (clock : Nat) : QueueTask :=
  { t with error := some msg, retry_count := t.retry_count + 1,
           status := TaskStatus.failed, completed_at := some clock }

/-- One step of the worker coroutine, from one suspension point to the
next.

* `idle`: the `while self.running` check, then `await self._queue.get()`
  bounded by the one-second poll timeout.  If the flag is down the loop
  exits; on an empty FIFO the timeout fires and the loop re-checks the
  flag.  Otherwise the head task is dequeued and `_execute_task` runs
  synchronously up to `await task.func(...)`: status RUNNING, started_at
  overwritten.
* `runBody tid`: the callable returns.  On success `_execute_task` stores
  the value in `result`, sets COMPLETED and `completed_at`, and control
  returns to the top of the loop.  On an exception the handler stores
  `str(e)` in `error` and increments `retry_count`; if the new count is
  still below `max_retries` the task becomes RETRYING and the coroutine
  suspends in `asyncio.sleep(task.retry_delay)`, otherwise the task
  becomes FAILED with `completed_at` set and control returns to the loop.
* `sleeping tid`: the sleep elapses (the clock advances by exactly
  `retry_delay`) and the same task record is re-put onto the FIFO tail.

The `none` fallbacks for a missing table entry are unreachable for
reachable states (the FIFO and the phase only ever hold identifiers of
tasks in the table). -/
def stepWorker (s : ManagerState) : ManagerState :=
  match s.phase with
  | .idle =>
    if s.running then
      match s.fifo with
      | [] => s
      | tid :: rest =>
        match s.tasks[tid]? with
        | none => { s with fifo := rest }
        | some t =>
          { s with tasks := s.tasks.set tid (markRunning t s.clock),
                   fifo := rest, phase := .runBody tid }
    else s
  | .runBody tid =>
    match s.tasks[tid]? with
    | none => { s with phase := .idle }
    | some t =>
      match t.func t.retry_count with
      | .ok v =>
        { s with tasks := s.tasks.set tid (markCompleted t v s.clock),
                 phase := .idle }
      | .error msg =>
        if t.retry_count + 1 < t.max_retries then
          { s with tasks := s.tasks.set tid (markRetrying t msg),
                   phase := .sleeping tid }
        else
          { s with tasks := s.tasks.set tid (markFailed t msg s.clock),
                   phase := .idle }
  | .sleeping tid =>
    match s.tasks[tid]? with
    | none => { s with phase := .idle }
    | some t =>
      { s with fifo := s.fifo ++ [tid], phase := .idle,
               clock := s.clock + t.retry_delay }

/-- The external events that can interleave with the worker: a submission
(`add_task`), one worker step, the lifecycle calls, and `fault` — the
`except Exception` branch of `_process_queue`, which logs an internal
error (e.g. a failure manipulating the FIFO) and falls back to the top of
the loop rather than terminating it. -/
inductive Event where
  | submit (name : String) (func : Nat → Except String Nat)
      (max_retries retry_delay : Nat)
  | work
  | start
  | stop
  | fault

/-- Apply one event to the manager state. -/
def applyEvent (s : ManagerState) : Event → ManagerState
  | .submit name func mr rd => (QueueManager.add_task s name func mr rd).1
  | .work => stepWorker s
  | .start => QueueManager.start s
  | .stop => QueueManager.stop s
  | .fault => { s with phase := .idle }

/-- Apply a sequence of events in order. -/
def runEvents (s : ManagerState) : List Event → ManagerState
  | [] => s
  | e :: es => runEvents (applyEvent s e) es

/-- The manager states reachable from a fresh `QueueManager()` under any
interleaving of submissions, worker steps, lifecycle calls and absorbed
internal errors. -/
inductive Reachable : ManagerState → Prop where
  | init : Reachable initState
  | step : ∀ s e, Reachable s → Reachable (applyEvent s e)

/-- The status of a task in the table, when present. -/
def statusAt (s : ManagerState) (tid : Nat) : Option TaskStatus :=
  (s.tasks[tid]?).map (·.status)

/-- The progress table written in the specification (section 4.4), one
clause per status, to be compared with the source's
`_calculate_progress`. -/
def progressSpec (t : QueueTask) : ℚ :=
  match t.status with
  | .completed => 100
  | .failed => 0
  | .retrying => 50 + ((t.retry_count : ℚ) / (t.max_retries : ℚ)) * 30
  | .running => 50
  | .pending => 0

/-- The transition edges of the task state machine:
PENDING → RUNNING, RUNNING → COMPLETED | RETRYING | FAILED,
RETRYING → RUNNING, plus staying put (a step need not touch every task).
COMPLETED and FAILED have no outgoing edge. -/
def allowedEdge : TaskStatus → TaskStatus → Bool
  | .pending, .running => true
  | .running, .completed => true
  | .running, .retrying => true
  | .running, .failed => true
  | .retrying, .running => true
  | a, b => a == b

/-- A callable that raises on every attempt with message `msg`. -/
def alwaysFail (msg : String) : Nat → Except String Nat :=
  fun _ => Except.error msg

/-- A callable that raises `msg` on the first attempt and returns `v` on
every later attempt. -/
def failThenSucceed (msg : String) (v : Nat) : Nat → Except String Nat :=
  fun k => if k = 0 then Except.error msg else Except.ok v

/-- Start the manager, submit one always-failing task with the given
`max_retries` (retry_delay 20), then run `n` worker steps. -/
def failScenario (msg : String) (mr n : Nat) : ManagerState :=
  runEvents initState
    (Event.start :: Event.submit "t" (alwaysFail msg) mr 20 :: List.replicate n Event.work)

/-- Start the manager, submit one fail-once-then-succeed task with the
given `max_retries` (retry_delay 20), then run `n` worker steps. -/
def recoverScenario (msg : String) (v mr n : Nat) : ManagerState :=
  runEvents initState
    (Event.start :: Event.submit "t" (failThenSucceed msg v) mr 20 :: List.replicate n Event.work)

/-- The task record of `failScenario "m" 2 1`: first attempt in flight. -/
def wRunTask : QueueTask :=
  { id := 0, name := "t", func := alwaysFail "m", status := .running,
    retry_count := 0, max_retries := 2, retry_delay := 20, result := none,
    error := none, created_at := some 0, started_at := some 0,
    completed_at := none }

/-- The task record of `failScenario "m" 2 2`: first attempt failed,
task RETRYING. -/
def wRetryTask : QueueTask :=
  { wRunTask with status := .retrying, retry_count := 1, error := some "m" }

/-- The task record of `failScenario "m" 2 0`: just submitted. -/
def wPendTask : QueueTask :=
  { wRunTask with status := .pending, started_at := none }

/-- The task record of `recoverScenario "m" 7 2 5`: failed once, then
completed on the second attempt. -/
def wDoneTask : QueueTask :=
  { id := 0, name := "t", func := failThenSucceed "m" 7, status := .completed,
    retry_count := 1, max_retries := 2, retry_delay := 20, result := some 7,
    error := some "m", created_at := some 0, started_at := some 20,
    completed_at := some 20 }

/-- Per-record invariant maintained by the worker for every task in the
table. -/
structure TaskInv (t : QueueTask) : Prop where
  pending_rc : t.status = .pending → t.retry_count = 0
  running_rc : t.status = .running → t.retry_count < t.max_retries ∨ t.retry_count = 0
  retrying_rc : t.status = .retrying → 1 ≤ t.retry_count ∧ t.retry_count < t.max_retries
  failed_rc : t.status = .failed → t.retry_count = max t.max_retries 1
  result_completed : t.status ≠ .completed → t.result = none
  error_iff : t.error = none ↔ t.retry_count = 0
  rc_le : t.retry_count ≤ max t.max_retries 1

/-- Global invariant of the manager state: identifiers match table indices,
every stored task satisfies `TaskInv`, every FIFO entry denotes a PENDING
or RETRYING task in the table, the FIFO holds no duplicates, and the task
the worker is currently executing (resp. sleeping on) is RUNNING
(resp. RETRYING) and not simultaneously queued. -/
structure MgrInv (s : ManagerState) : Prop where
  idIndex : ∀ (i : Nat) (t : QueueTask), s.tasks[i]? = some t → t.id = i
  taskInv : ∀ t ∈ s.tasks, TaskInv t
  fifoStatus : ∀ tid ∈ s.fifo, ∃ t, s.tasks[tid]? = some t ∧
    (t.status = .pending ∨ t.status = .retrying)
  fifoNodup : s.fifo.Nodup
  runInv : ∀ tid, s.phase = .runBody tid →
    (∃ t, s.tasks[tid]? = some t ∧ t.status = .running) ∧ tid ∉ s.fifo
  sleepInv : ∀ tid, s.phase = .sleeping tid →
    (∃ t, s.tasks[tid]? = some t ∧ t.status = .retrying) ∧ tid ∉ s.fifo

theorem lt_of_lookup {α : Type} {l : List α} {i : Nat} {a : α}
    (h : l[i]? = some a) : i < l.length := by
  rcases List.getElem?_eq_some_iff.1 h with ⟨hi, _⟩
  exact hi

theorem inv_initState : MgrInv initState := by
  refine ⟨?_, ?_, ?_, ?_, ?_, ?_⟩ <;> simp [initState]

theorem inv_add_task (s : ManagerState) (name : String)
    (func : Nat → Except String Nat) (mr rd : Nat) (h : MgrInv s) :
    MgrInv (QueueManager.add_task s name func mr rd).1 := by
  obtain ⟨hid, htask, hfifo, hnd, hrun, hsleep⟩ := h
  unfold QueueManager.add_task
  simp only
  refine ⟨?_, ?_, ?_, ?_, ?_, ?_⟩
  · intro i t ht
    simp only at ht
    rcases Nat.lt_or_ge i s.tasks.length with hi | hi
    · rw [List.getElem?_append_left hi] at ht
      exact hid i t ht
    · rcases Nat.eq_or_lt_of_le hi with hi' | hi'
      · subst hi'
        rw [List.getElem?_concat_length] at ht
        cases ht
        rfl
      · rw [List.getElem?_append_right hi] at ht
        simp only [List.getElem?_cons, List.length_singleton] at ht
        split at ht
        · omega
        · simp at ht
  · intro t ht
    rcases List.mem_append.1 ht with ht | ht
    · exact htask t ht
    · rcases List.mem_singleton.1 ht with rfl
      exact ⟨fun _ => rfl, fun h => absurd h (by simp), fun h => absurd h (by simp),
        fun h => absurd h (by simp), fun _ => rfl, by simp, by simp⟩
  · intro tid htid
    rcases List.mem_append.1 htid with htid | htid
    · rcases hfifo tid htid with ⟨t, hlook, hst⟩
      exact ⟨t, by rw [List.getElem?_append_left (lt_of_lookup hlook)]; exact hlook, hst⟩
    · rcases List.mem_singleton.1 htid with rfl
      exact ⟨_, List.getElem?_concat_length _ _, Or.inl rfl⟩
  · refine List.Nodup.append hnd (List.nodup_singleton _) ?_
    intro x hx hx'
    rcases List.mem_singleton.1 hx' with rfl
    rcases hfifo _ hx with ⟨t, hlook, _⟩
    exact absurd (lt_of_lookup hlook) (Nat.lt_irrefl _)
  · intro tid hph
    rcases hrun tid hph with ⟨⟨t, hlook, hst⟩, hnot⟩
    refine ⟨⟨t, by rw [List.getElem?_append_left (lt_of_lookup hlook)]; exact hlook, hst⟩, ?_⟩
    intro hmem
    rcases List.mem_append.1 hmem with hmem | hmem
    · exact hnot hmem
    · rcases List.mem_singleton.1 hmem with rfl
      exact absurd (lt_of_lookup hlook) (Nat.lt_irrefl _)
  · intro tid hph
    rcases hsleep tid hph with ⟨⟨t, hlook, hst⟩, hnot⟩
    refine ⟨⟨t, by rw [List.getElem?_append_left (lt_of_lookup hlook)]; exact hlook, hst⟩, ?_⟩
    intro hmem
    rcases List.mem_append.1 hmem with hmem | hmem
    · exact hnot hmem
    · rcases List.mem_singleton.1 hmem with rfl
      exact absurd (lt_of_lookup hlook) (Nat.lt_irrefl _)

theorem taskInv_markRunning {t : QueueTask} (clock : Nat) (h : TaskInv t)
    (hst : t.status = .pending ∨ t.status = .retrying) :
    TaskInv (markRunning t clock) := by
  have hrc : t.retry_count < t.max_retries ∨ t.retry_count = 0 := by
    rcases hst with hst | hst
    · exact Or.inr (h.pending_rc hst)
    · exact Or.inl (h.retrying_rc hst).2
  have hres : t.result = none := by
    refine h.result_completed ?_
    rcases hst with hst | hst <;> simp [hst]
  refine ⟨?_, ?_, ?_, ?_, ?_, ?_, ?_⟩ <;>
    simp [markRunning, hres, h.error_iff, h.rc_le]
  exact hrc

theorem taskInv_markCompleted {t : QueueTask} (v clock : Nat) (h : TaskInv t) :
    TaskInv (markCompleted t v clock) := by
  refine ⟨?_, ?_, ?_, ?_, ?_, ?_, ?_⟩ <;>
    simp [markCompleted, h.error_iff, h.rc_le]

theorem taskInv_markRetrying {t : QueueTask} (msg : String) (h : TaskInv t)
    (hst : t.status = .running)
    (hlt : t.retry_count + 1 < t.max_retries) :
    TaskInv (markRetrying t msg) := by
  have hres : t.result = none := h.result_completed (by simp [hst])
  refine ⟨?_, ?_, ?_, ?_, ?_, ?_, ?_⟩ <;>
    simp [markRetrying, hres]
  · omega
  · omega

theorem taskInv_markFailed {t : QueueTask} (msg : String) (clock : Nat)
    (h : TaskInv t) (hst : t.status = .running)
    (hge : ¬ t.retry_count + 1 < t.max_retries) :
    TaskInv (markFailed t msg clock) := by
  have hres : t.result = none := h.result_completed (by simp [hst])
  have hrc : t.retry_count < t.max_retries ∨ t.retry_count = 0 := h.running_rc hst
  refine ⟨?_, ?_, ?_, ?_, ?_, ?_, ?_⟩ <;>
    simp [markFailed, hres]
  · omega
  · omega

theorem idIndex_set {l : List QueueTask} {tid : Nat} {t t' : QueueTask}
    (hidx : ∀ (i : Nat) (u : QueueTask), l[i]? = some u → u.id = i)
    (hlook : l[tid]? = some t) (hid' : t'.id = t.id) :
    ∀ (i : Nat) (u : QueueTask), (l.set tid t')[i]? = some u → u.id = i := by
  intro i u hu
  by_cases hi : tid = i
  · subst hi
    rw [List.getElem?_set_self (lt_of_lookup hlook)] at hu
    cases hu
    rw [hid']
    exact hidx tid t hlook
  · rw [List.getElem?_set_ne hi] at hu
    exact hidx i u hu

theorem taskInv_set {l : List QueueTask} {tid : Nat} {t' : QueueTask}
    (htask : ∀ u ∈ l, TaskInv u) (hT' : TaskInv t') :
    ∀ u ∈ l.set tid t', TaskInv u := by
  intro u hu
  rcases List.mem_or_eq_of_mem_set hu with hu | rfl
  · exact htask u hu
  · exact hT'

theorem fifoStatus_set {s : ManagerState} {tid : Nat} {t' : QueueTask}
    (hfifo : ∀ u ∈ s.fifo, ∃ w, s.tasks[u]? = some w ∧
      (w.status = .pending ∨ w.status = .retrying)) :
    ∀ u ∈ s.fifo, u ≠ tid → ∃ w, (s.tasks.set tid t')[u]? = some w ∧
      (w.status = .pending ∨ w.status = .retrying) := by
  intro u hu hne
  rcases hfifo u hu with ⟨w, hw, hws⟩
  exact ⟨w, by rw [List.getElem?_set_ne fun he => hne he.symm]; exact hw, hws⟩

theorem inv_stepWorker (s : ManagerState) (h : MgrInv s) :
    MgrInv (stepWorker s) := by
  obtain ⟨hid, htask, hfifo, hnd, hrun, hsleep⟩ := h
  unfold stepWorker
  split
  case _ hph =>
    split
    case isTrue hr =>
      split
      case _ hfi =>
        exact ⟨hid, htask, hfifo, hnd, hrun, hsleep⟩
      case _ tid rest hfi =>
        split
        case _ hnone =>
          rcases hfifo tid (hfi ▸ List.mem_cons_self tid rest) with ⟨t, hlook, _⟩
          rw [hnone] at hlook
          exact Option.noConfusion hlook
        case _ t hlook =>
          rcases hfifo tid (hfi ▸ List.mem_cons_self tid rest) with ⟨t0, hlook0, hst⟩
          rw [hlook] at hlook0
          cases hlook0
          have hnd' : (tid :: rest).Nodup := hfi ▸ hnd
          have htid_rest : tid ∉ rest := (List.nodup_cons.1 hnd').1
          have hrest_nd : rest.Nodup := (List.nodup_cons.1 hnd').2
          have hT := htask t (List.getElem?_mem hlook)
          refine ⟨?_, ?_, ?_, ?_, ?_, ?_⟩
          · exact idIndex_set hid hlook (by simp [markRunning])
          · exact taskInv_set htask (taskInv_markRunning s.clock hT hst)
          · intro u hu
            simp only at hu
            have hne : u ≠ tid := fun he => htid_rest (he ▸ hu)
            exact fifoStatus_set hfifo u
              (hfi ▸ List.mem_cons_of_mem tid hu) hne
          · exact hrest_nd
          · intro tid' hph'
            simp only at hph'
            cases hph'
            refine ⟨⟨markRunning t s.clock, ?_, by simp [markRunning]⟩, htid_rest⟩
            rw [List.getElem?_set_self (lt_of_lookup hlook)]
          · intro tid' hph'
            simp at hph'
    case isFalse hr =>
      exact ⟨hid, htask, hfifo, hnd, hrun, hsleep⟩
  case _ tid hph =>
    rcases hrun tid hph with ⟨⟨t, hlook, hst⟩, hnotin⟩
    split
    case _ hnone =>
      rw [hnone] at hlook
      exact Option.noConfusion hlook
    case _ t1 hlook1 =>
      rw [hlook1] at hlook
      cases hlook
      have hT := htask t (List.getElem?_mem hlook1)
      split
      case _ v hfn =>
        refine ⟨?_, ?_, ?_, ?_, ?_, ?_⟩
        · exact idIndex_set hid hlook1 (by simp [markCompleted])
        · exact taskInv_set htask (taskInv_markCompleted v s.clock hT)
        · intro u hu
          simp only at hu
          exact fifoStatus_set hfifo u hu fun he => hnotin (he ▸ hu)
        · exact hnd
        · intro tid' hph'
          simp at hph'
        · intro tid' hph'
          simp at hph'
      case _ msg hfn =>
        split
        case isTrue hlt =>
          refine ⟨?_, ?_, ?_, ?_, ?_, ?_⟩
          · exact idIndex_set hid hlook1 (by simp [markRetrying])
          · exact taskInv_set htask (taskInv_markRetrying msg hT hst hlt)
          · intro u hu
            simp only at hu
            exact fifoStatus_set hfifo u hu fun he => hnotin (he ▸ hu)
          · exact hnd
          · intro tid' hph'
            simp at hph'
          · intro tid' hph'
            simp only at hph'
            cases hph'
            refine ⟨⟨markRetrying t msg, ?_, by simp [markRetrying]⟩, hnotin⟩
            rw [List.getElem?_set_self (lt_of_lookup hlook1)]
        case isFalse hlt =>
          refine ⟨?_, ?_, ?_, ?_, ?_, ?_⟩
          · exact idIndex_set hid hlook1 (by simp [markFailed])
          · exact taskInv_set htask (taskInv_markFailed msg s.clock hT hst hlt)
          · intro u hu
            simp only at hu
            exact fifoStatus_set hfifo u hu fun he => hnotin (he ▸ hu)
          · exact hnd
          · intro tid' hph'
            simp at hph'
          · intro tid' hph'
            simp at hph'
  case _ tid hph =>
    rcases hsleep tid hph with ⟨⟨t, hlook, hst⟩, hnotin⟩
    split
    case _ hnone =>
      rw [hnone] at hlook
      exact Option.noConfusion hlook
    case _ t1 hlook1 =>
      rw [hlook1] at hlook
      cases hlook
      refine ⟨hid, htask, ?_, ?_, ?_, ?_⟩
      · intro u hu
        simp only at hu
        rcases List.mem_append.1 hu with hu | hu
        · exact hfifo u hu
        · rcases List.mem_singleton.1 hu with rfl
          exact ⟨t, hlook1, Or.inr hst⟩
      · refine List.Nodup.append hnd (List.nodup_singleton _) ?_
        intro x hx hx'
        rcases List.mem_singleton.1 hx' with rfl
        exact hnotin hx
      · intro tid' hph'
        simp at hph'
      · intro tid' hph'
        simp at hph'

theorem inv_applyEvent (s : ManagerState) (e : Event) (h : MgrInv s) :
    MgrInv (applyEvent s e) := by
  cases e with
  | submit name func mr rd => exact inv_add_task s name func mr rd h
  | work => exact inv_stepWorker s h
  | start =>
    obtain ⟨hid, htask, hfifo, hnd, hrun, hsleep⟩ := h
    show MgrInv (QueueManager.start s)
    unfold QueueManager.start
    split
    · exact ⟨hid, htask, hfifo, hnd, hrun, hsleep⟩
    · exact ⟨hid, htask, hfifo, hnd, hrun, hsleep⟩
  | stop =>
    obtain ⟨hid, htask, hfifo, hnd, hrun, hsleep⟩ := h
    refine ⟨hid, htask, hfifo, hnd, ?_, ?_⟩
    · intro tid hph
      simp [applyEvent, QueueManager.stop] at hph
    · intro tid hph
      simp [applyEvent, QueueManager.stop] at hph
  | fault =>
    obtain ⟨hid, htask, hfifo, hnd, hrun, hsleep⟩ := h
    refine ⟨hid, htask, hfifo, hnd, ?_, ?_⟩
    · intro tid hph
      simp [applyEvent] at hph
    · intro tid hph
      simp [applyEvent] at hph

theorem inv_reachable (s : ManagerState) (h : Reachable s) : MgrInv s := by
  induction h with
  | init => exact inv_initState
  | step s e _ ih => exact inv_applyEvent s e ih

theorem reachable_runEvents (s : ManagerState) (h : Reachable s)
    (es : List Event) : Reachable (runEvents s es) := by
  induction es generalizing s with
  | nil => exact h
  | cons e es ih => exact ih (applyEvent s e) (Reachable.step s e h)

theorem runEvents_append (s : ManagerState) (es1 es2 : List Event) :
    runEvents s (es1 ++ es2) = runEvents (runEvents s es1) es2 := by
  induction es1 generalizing s with
  | nil => rfl
  | cons e es ih => exact ih (applyEvent s e)

theorem allowedEdge_refl (a : TaskStatus) : allowedEdge a a = true := by
  cases a <;> rfl

theorem taskInv_of_lookup {s : ManagerState} {i : Nat} {t : QueueTask}
    (h : Reachable s) (hl : s.tasks[i]? = some t) : TaskInv t :=
  (inv_reachable s h).taskInv t (List.getElem?_mem hl)

/-- C1 (amended): for every reachable state and every task in the table,
PENDING implies retry_count = 0 and RETRYING implies
retry_count < max_retries, unconditionally; and whenever max_retries ≥ 1,
retry_count never exceeds max_retries and FAILED implies
retry_count = max_retries.  (For max_retries = 0 the code increments
retry_count before comparing, so a failing task ends FAILED with
retry_count = 1 > max_retries; see the counterexample.) -/
theorem C1_retry_count_invariant :
    ∀ (s : ManagerState) (i : Nat) (t : QueueTask),
      Reachable s → s.tasks[i]? = some t →
      (t.status = TaskStatus.pending → t.retry_count = 0) ∧
      (t.status = TaskStatus.retrying → t.retry_count < t.max_retries) ∧
      (1 ≤ t.max_retries →
        t.retry_count ≤ t.max_retries ∧
        (t.status = TaskStatus.failed → t.retry_count = t.max_retries)) := by
  intro s i t hs hl
  have hT := taskInv_of_lookup hs hl
  refine ⟨hT.pending_rc, fun h => (hT.retrying_rc h).2, fun hmr => ⟨?_, fun hf => ?_⟩⟩
  · have := hT.rc_le
    omega
  · have := hT.failed_rc hf
    omega

/-- C1 counterexample: submit an always-failing task with max_retries = 0
and run the worker; the reachable final state has the task FAILED with
retry_count = 1 > 0 = max_retries, refuting the claim for
max_retries = 0. -/
theorem C1_counterexample :
    Reachable (failScenario "boom" 0 2) ∧
    ((failScenario "boom" 0 2).tasks[0]?).map
        (fun t => (t.status, t.retry_count, t.max_retries)) =
      some (TaskStatus.failed, 1, 0) :=
  ⟨reachable_runEvents initState Reachable.init _, by decide⟩

/-- C1 witness: the amended theorem applied to the reachable state
`failScenario "m" 2 2`, whose task is RETRYING with retry_count 1 and
max_retries 2. -/
theorem C1_witness :
    wRetryTask.retry_count < wRetryTask.max_retries ∧
    wRetryTask.retry_count ≤ wRetryTask.max_retries := by
  have h := C1_retry_count_invariant (failScenario "m" 2 2) 0 wRetryTask
    (reachable_runEvents initState Reachable.init _) rfl
  exact ⟨h.2.1 rfl, (h.2.2 (by decide)).1⟩

/-- C2 (amended): for every reachable state and every task in the table,
result is non-null only when status is COMPLETED; error is null exactly
when no attempt has failed yet (retry_count = 0).  Hence error, once set,
persists through recovery: a task that fails once and then succeeds
(which requires max_retries ≥ 2, since the code allows max_retries - 1
retries) ends COMPLETED with result set and error still holding the first
failure's text. -/
theorem C2_result_error_invariant :
    ∀ (s : ManagerState) (i : Nat) (t : QueueTask),
      Reachable s → s.tasks[i]? = some t →
      (t.result ≠ none → t.status = TaskStatus.completed) ∧
      (t.error = none ↔ t.retry_count = 0) := by
  intro s i t hs hl
  have hT := taskInv_of_lookup hs hl
  exact ⟨fun hr => Classical.byContradiction fun hc => hr (hT.result_completed hc),
    hT.error_iff⟩

/-- C2 counterexample: a task that fails once then succeeds with
max_retries = 2 ends COMPLETED with error = "boom" still non-null
(refuting both the error-only-when-RETRYING-or-FAILED invariant and the
error-absent ending); and with max_retries = 1 the same callable is never
retried at all and ends FAILED (refuting the claim's max_retries ≥ 1
bound for the recovery scenario). -/
theorem C2_counterexample :
    ((recoverScenario "boom" 7 2 5).tasks[0]?).map
        (fun t => (t.status, t.error, t.result)) =
      some (TaskStatus.completed, some "boom", some 7) ∧
    ((recoverScenario "boom" 7 1 2).tasks[0]?).map
        (fun t => (t.status, t.retry_count)) =
      some (TaskStatus.failed, 1) := by
  decide

/-- C2 witness: the amended theorem applied to the reachable state
`recoverScenario "m" 7 2 5`, whose task has result = some 7, forcing
status COMPLETED. -/
theorem C2_witness : wDoneTask.status = TaskStatus.completed :=
  (C2_result_error_invariant (recoverScenario "m" 7 2 5) 0 wDoneTask
    (reachable_runEvents initState Reachable.init _) rfl).1 (by decide)

theorem runEvents_concat (s : ManagerState) (es : List Event) (e : Event) :
    runEvents s (es ++ [e]) = applyEvent (runEvents s es) e := by
  rw [runEvents_append]
  rfl

theorem failScenario_succ (msg : String) (mr n : Nat) :
    failScenario msg mr (n + 1) = stepWorker (failScenario msg mr n) := by
  unfold failScenario
  rw [List.replicate_succ']
  exact runEvents_concat initState
    (Event.start :: Event.submit "t" (alwaysFail msg) mr 20 :: List.replicate n Event.work)
    Event.work

/-- C3 (confirmed): for any failure message, an always-failing task
submitted with max_retries = 2 is observed RUNNING after its first
dequeue, RETRYING with retry_count 1 after the first failure (and still
RETRYING when re-enqueued at the FIFO tail), RUNNING again on the second
attempt, and from the second failure on it is permanently FAILED with
retry_count = 2 and the error text equal to the failure's description
verbatim. -/
theorem C3_always_fail_trace : ∀ msg : String,
    statusAt (failScenario msg 2 1) 0 = some TaskStatus.running ∧
    ((failScenario msg 2 2).tasks[0]?).map (fun t => (t.status, t.retry_count)) =
      some (TaskStatus.retrying, 1) ∧
    statusAt (failScenario msg 2 3) 0 = some TaskStatus.retrying ∧
    statusAt (failScenario msg 2 4) 0 = some TaskStatus.running ∧
    ((failScenario msg 2 5).tasks[0]?).map
        (fun t => (t.status, t.retry_count, t.error)) =
      some (TaskStatus.failed, 2, some msg) ∧
    (∀ n : Nat, statusAt (failScenario msg 2 (5 + n)) 0 = some TaskStatus.failed) := by
  intro msg
  have hfix : ∀ n : Nat, failScenario msg 2 (5 + n) = failScenario msg 2 5 := by
    intro n
    induction n with
    | zero => rfl
    | succ k ih =>
      show failScenario msg 2 ((5 + k) + 1) = failScenario msg 2 5
      rw [failScenario_succ, ih]
      simp [failScenario, runEvents, applyEvent, stepWorker, QueueManager.add_task,
        QueueManager.start, markRunning, markRetrying, markFailed, initState,
        alwaysFail, List.replicate]
  refine ⟨?_, ?_, ?_, ?_, ?_, ?_⟩ <;>
    first
    | (intro n
       rw [hfix n]
       simp [failScenario, runEvents, applyEvent, stepWorker, QueueManager.add_task,
         QueueManager.start, markRunning, markRetrying, markFailed, initState,
         alwaysFail, statusAt, List.replicate])
    | simp [failScenario, runEvents, applyEvent, stepWorker, QueueManager.add_task,
        QueueManager.start, markRunning, markRetrying, markFailed, initState,
        alwaysFail, statusAt, List.replicate]

/-- C3 witness: the trace theorem instantiated at the failure message
"boom", observed at the first attempt and after the final failure. -/
theorem C3_witness :
    statusAt (failScenario "boom" 2 1) 0 = some TaskStatus.running ∧
    statusAt (failScenario "boom" 2 5) 0 = some TaskStatus.failed := by
  have h := C3_always_fail_trace "boom"
  exact ⟨h.1, h.2.2.2.2.2 0⟩

/-- C4 (confirmed): in any reachable state where the worker's current
attempt for task `tid` fails with retry_count + 1 still below max_retries,
the worker marks the task RETRYING and suspends (FIFO untouched), the
sleep lasts exactly `retry_delay` clock units — a fixed per-retry value
with no backoff multiplier — and then the very same task record (same
identifier, same accumulated retry_count) is pushed onto the FIFO tail
behind every identifier already queued, after which the worker is idle
again. -/
theorem C4_retry_requeues_at_tail :
    ∀ (s : ManagerState) (tid : Nat) (t : QueueTask) (msg : String),
      Reachable s → s.phase = WorkerPhase.runBody tid → s.tasks[tid]? = some t →
      t.func t.retry_count = Except.error msg → t.retry_count + 1 < t.max_retries →
      (stepWorker s).phase = WorkerPhase.sleeping tid ∧
      statusAt (stepWorker s) tid = some TaskStatus.retrying ∧
      (stepWorker s).fifo = s.fifo ∧
      tid ∉ s.fifo ∧
      (stepWorker (stepWorker s)).clock = (stepWorker s).clock + t.retry_delay ∧
      (stepWorker (stepWorker s)).fifo = s.fifo ++ [tid] ∧
      ((stepWorker (stepWorker s)).tasks[tid]?).map (fun u => (u.id, u.retry_count)) =
        some (tid, t.retry_count + 1) ∧
      (stepWorker (stepWorker s)).phase = WorkerPhase.idle := by
  intro s tid t msg hs hph hlook hfn hlt
  have hinv := inv_reachable s hs
  have hnotin : tid ∉ s.fifo := (hinv.runInv tid hph).2
  have hidm : t.id = tid := hinv.idIndex tid t hlook
  have hlen : tid < s.tasks.length := lt_of_lookup hlook
  have hset : (s.tasks.set tid (markRetrying t msg))[tid]? = some (markRetrying t msg) :=
    List.getElem?_set_self hlen
  have h1 : stepWorker s =
      { s with tasks := s.tasks.set tid (markRetrying t msg),
               phase := WorkerPhase.sleeping tid } := by
    simp only [stepWorker, hph, hlook, hfn, if_pos hlt]
  have h2 : stepWorker (stepWorker s) =
      { s with tasks := s.tasks.set tid (markRetrying t msg),
               fifo := s.fifo ++ [tid], phase := WorkerPhase.idle,
               clock := s.clock + t.retry_delay } := by
    rw [h1]
    simp only [stepWorker, hset]
    simp [markRetrying]
  refine ⟨?_, ?_, ?_, hnotin, ?_, ?_, ?_, ?_⟩
  · rw [h1]
  · rw [h1]
    dsimp only [statusAt]
    rw [hset]
    simp [markRetrying]
  · rw [h1]
  · rw [h2, h1]
  · rw [h2]
  · rw [h2]
    dsimp only
    rw [hset]
    simp [markRetrying, hidm]
  · rw [h2]

/-- C4 witness: the theorem applied to the reachable state
`failScenario "m" 2 1`, whose first attempt of task 0 fails with
retry_count + 1 = 1 < 2 = max_retries. -/
theorem C4_witness :
    (stepWorker (failScenario "m" 2 1)).phase = WorkerPhase.sleeping 0 ∧
    (stepWorker (stepWorker (failScenario "m" 2 1))).fifo =
      (failScenario "m" 2 1).fifo ++ [0] := by
  have h := C4_retry_requeues_at_tail (failScenario "m" 2 1) 0 wRunTask "m"
    (reachable_runEvents initState Reachable.init _) rfl rfl rfl (by decide)
  exact ⟨h.1, h.2.2.2.2.2.1⟩

/-- C5 (confirmed): for every manager state and identifier, the progress
percentage reported by `get_task_status` is exactly the piecewise function
of the spec: COMPLETED → 100, FAILED → 0,
RETRYING → 50 + (retry_count / max_retries) × 30, RUNNING → 50,
PENDING → 0. -/
theorem C5_progress_piecewise :
    ∀ (s : ManagerState) (tid : Nat),
      (QueueManager.get_task_status s tid).map (fun snap => snap.progress) =
        (s.tasks[tid]?).map progressSpec := by
  intro s tid
  cases h : s.tasks[tid]? with
  | none => simp [QueueManager.get_task_status, h]
  | some t =>
    simp only [QueueManager.get_task_status, h, Option.map_some']
    have : QueueManager._calculate_progress t = progressSpec t := by
      cases ht : t.status <;>
        simp [QueueManager._calculate_progress, progressSpec, ht]
    simp [QueueManager.snapshotOf, this]

/-- C5 witness: the refinement theorem instantiated at the submitted-task
state `failScenario "m" 2 0` and identifier 0. -/
theorem C5_witness :
    (QueueManager.get_task_status (failScenario "m" 2 0) 0).map
        (fun snap => snap.progress) =
      ((failScenario "m" 2 0).tasks[0]?).map progressSpec :=
  C5_progress_piecewise (failScenario "m" 2 0) 0

/-- C9 (confirmed): `start` is idempotent — on an already-running manager
it is the identity, applying it twice equals applying it once, and from a
stopped manager two consecutive starts spawn exactly one worker
coroutine; in particular a fresh manager started twice has exactly one
worker consuming the FIFO. -/
theorem C9_start_idempotent :
    ∀ s : ManagerState,
      (s.running = true → QueueManager.start s = s) ∧
      QueueManager.start (QueueManager.start s) = QueueManager.start s ∧
      (s.running = false →
        (QueueManager.start s).workerCount = s.workerCount + 1 ∧
        (QueueManager.start (QueueManager.start s)).workerCount = s.workerCount + 1) ∧
      (QueueManager.start (QueueManager.start initState)).workerCount = 1 := by
  intro s
  refine ⟨?_, ?_, ?_, by decide⟩
  · intro h
    unfold QueueManager.start
    rw [if_pos h]
  · by_cases h : s.running = true <;> simp [QueueManager.start, h]
  · intro h
    simp [QueueManager.start, h]

/-- C9 witness: the theorem applied to a running manager
(`start initState`) and to the fresh manager `initState`. -/
theorem C9_witness :
    QueueManager.start (QueueManager.start initState) = QueueManager.start initState ∧
    (QueueManager.start initState).workerCount = initState.workerCount + 1 :=
  ⟨(C9_start_idempotent (QueueManager.start initState)).1 rfl,
   ((C9_start_idempotent initState).2.2.1 rfl).1⟩

/-- C10 (confirmed): in every reachable state, a RETRYING task has
1 ≤ retry_count < max_retries, so max_retries ≥ 1 and the divisor
max_retries in the RETRYING branch of `_calculate_progress` is nonzero;
the branch computes 50 + (retry_count / max_retries) × 30 as an ordinary
division. -/
theorem C10_progress_division_safe :
    ∀ (s : ManagerState) (i : Nat) (t : QueueTask),
      Reachable s → s.tasks[i]? = some t → t.status = TaskStatus.retrying →
      1 ≤ t.retry_count ∧ t.retry_count < t.max_retries ∧ 1 ≤ t.max_retries ∧
      ((t.max_retries : ℚ) ≠ 0) ∧
      QueueManager._calculate_progress t =
        50 + ((t.retry_count : ℚ) / (t.max_retries : ℚ)) * 30 := by
  intro s i t hs hl hret
  have h1 := (taskInv_of_lookup hs hl).retrying_rc hret
  refine ⟨h1.1, h1.2, by omega, ?_, ?_⟩
  · exact_mod_cast Nat.pos_iff_ne_zero.1 (by omega)
  · simp [QueueManager._calculate_progress, hret]

/-- C10 witness: the theorem applied to the reachable RETRYING state
`failScenario "m" 2 2`. -/
theorem C10_witness : ((wRetryTask.max_retries : ℚ) ≠ 0) :=
  (C10_progress_division_safe (failScenario "m" 2 2) 0 wRetryTask
    (reachable_runEvents initState Reachable.init _) rfl rfl).2.2.2.1

/-- C6 (confirmed): across every event (submission, worker step, start,
stop, or an absorbed internal error) from any reachable state, each
task's status either stays put or moves along one of the edges
PENDING → RUNNING, RUNNING → COMPLETED | RETRYING | FAILED,
RETRYING → RUNNING; in particular every attempt begins by entering
RUNNING, and COMPLETED and FAILED are terminal (no outgoing edge). -/
theorem C6_status_transitions :
    ∀ (s : ManagerState) (e : Event) (tid : Nat) (t t' : QueueTask),
      Reachable s → s.tasks[tid]? = some t →
      (applyEvent s e).tasks[tid]? = some t' →
      allowedEdge t.status t'.status = true := by
  intro s e tid t t' hs hl hl'
  have hinv := inv_reachable s hs
  cases e with
  | submit name func mr rd =>
    have hl2 : (s.tasks ++ [_])[tid]? = some t' := hl'
    rw [List.getElem?_append_left (lt_of_lookup hl), hl] at hl2
    cases hl2
    exact allowedEdge_refl t.status
  | start =>
    have hts : (applyEvent s Event.start).tasks = s.tasks := by
      show (QueueManager.start s).tasks = s.tasks
      unfold QueueManager.start
      split <;> rfl
    rw [hts, hl] at hl'
    cases hl'
    exact allowedEdge_refl t.status
  | stop =>
    have hl2 : s.tasks[tid]? = some t' := hl'
    rw [hl] at hl2
    cases hl2
    exact allowedEdge_refl t.status
  | fault =>
    have hl2 : s.tasks[tid]? = some t' := hl'
    rw [hl] at hl2
    cases hl2
    exact allowedEdge_refl t.status
  | work =>
    show allowedEdge t.status t'.status = true
    replace hl' : (stepWorker s).tasks[tid]? = some t' := hl'
    unfold stepWorker at hl'
    split at hl'
    case _ hph =>
      split at hl'
      case isTrue hr =>
        split at hl'
        case _ hfi =>
          rw [hl] at hl'
          cases hl'
          exact allowedEdge_refl t.status
        case _ tid0 rest hfi =>
          split at hl'
          case _ hnone =>
            have hl2 : s.tasks[tid]? = some t' := hl'
            rw [hl] at hl2
            cases hl2
            exact allowedEdge_refl t.status
          case _ u hlook0 =>
            have hl2 : (s.tasks.set tid0 (markRunning u s.clock))[tid]? = some t' := hl'
            by_cases he : tid0 = tid
            · subst he
              rw [List.getElem?_set_self (lt_of_lookup hlook0)] at hl2
              cases hl2
              rw [hl] at hlook0
              cases hlook0
              rcases hinv.fifoStatus tid0 (hfi ▸ List.mem_cons_self _ _) with ⟨w, hw, hws⟩
              rw [hl] at hw
              cases hw
              rcases hws with h | h <;> rw [h] <;> rfl
            · rw [List.getElem?_set_ne he, hl] at hl2
              cases hl2
              exact allowedEdge_refl t.status
      case isFalse hr =>
        rw [hl] at hl'
        cases hl'
        exact allowedEdge_refl t.status
    case _ tid0 hph =>
      rcases hinv.runInv tid0 hph with ⟨⟨u, hlook0, hust⟩, _⟩
      split at hl'
      case _ hnone =>
        rw [hnone] at hlook0
        exact Option.noConfusion hlook0
      case _ u1 hlook1 =>
        rw [hlook1] at hlook0
        cases hlook0
        split at hl'
        case _ v hfn =>
          have hl2 : (s.tasks.set tid0 (markCompleted u v s.clock))[tid]? = some t' := hl'
          by_cases he : tid0 = tid
          · subst he
            rw [List.getElem?_set_self (lt_of_lookup hlook1)] at hl2
            cases hl2
            rw [hl] at hlook1
            cases hlook1
            rw [hust]
            rfl
          · rw [List.getElem?_set_ne he, hl] at hl2
            cases hl2
            exact allowedEdge_refl t.status
        case _ msg hfn =>
          split at hl'
          case isTrue hlt =>
            have hl2 : (s.tasks.set tid0 (markRetrying u msg))[tid]? = some t' := hl'
            by_cases he : tid0 = tid
            · subst he
              rw [List.getElem?_set_self (lt_of_lookup hlook1)] at hl2
              cases hl2
              rw [hl] at hlook1
              cases hlook1
              rw [hust]
              rfl
            · rw [List.getElem?_set_ne he, hl] at hl2
              cases hl2
              exact allowedEdge_refl t.status
          case isFalse hlt =>
            have hl2 : (s.tasks.set tid0 (markFailed u msg s.clock))[tid]? = some t' := hl'
            by_cases he : tid0 = tid
            · subst he
              rw [List.getElem?_set_self (lt_of_lookup hlook1)] at hl2
              cases hl2
              rw [hl] at hlook1
              cases hlook1
              rw [hust]
              rfl
            · rw [List.getElem?_set_ne he, hl] at hl2
              cases hl2
              exact allowedEdge_refl t.status
    case _ tid0 hph =>
      split at hl'
      case _ hnone =>
        have hl2 : s.tasks[tid]? = some t' := hl'
        rw [hl] at hl2
        cases hl2
        exact allowedEdge_refl t.status
      case _ u1 hlook1 =>
        have hl2 : s.tasks[tid]? = some t' := hl'
        rw [hl] at hl2
        cases hl2
        exact allowedEdge_refl t.status

/-- C6 witness: the transition theorem applied to the dequeue step of the
reachable state `failScenario "m" 2 0`, taking task 0 from PENDING
(`wPendTask`) to RUNNING (`wRunTask`). -/
theorem C6_witness : allowedEdge wPendTask.status wRunTask.status = true :=
  C6_status_transitions (failScenario "m" 2 0) Event.work 0 wPendTask wRunTask
    (reachable_runEvents initState Reachable.init _) rfl rfl

/-- C7 (confirmed): a failing callable never kills the worker loop.  From
any reachable state in which the current attempt raises, the worker
returns to the idle top of its loop (directly on permanent failure, or
after the retry sleep) with the running flag untouched; an internal error
absorbed by the loop's own handler likewise leaves the flag untouched and
the loop back at its top; and from any reachable idle state with a
non-empty FIFO the next worker step dequeues and starts the next queued
task. -/
theorem C7_worker_survives_failures :
    ∀ (s : ManagerState) (tid : Nat) (t : QueueTask) (msg : String),
      Reachable s → s.phase = WorkerPhase.runBody tid → s.tasks[tid]? = some t →
      t.func t.retry_count = Except.error msg →
      ((stepWorker s).phase = WorkerPhase.idle ∨
        ((stepWorker s).phase = WorkerPhase.sleeping tid ∧
          (stepWorker (stepWorker s)).phase = WorkerPhase.idle)) ∧
      (stepWorker s).running = s.running ∧
      (applyEvent s Event.fault).running = s.running ∧
      (applyEvent s Event.fault).phase = WorkerPhase.idle ∧
      (∀ (s' : ManagerState) (x : Nat) (rest : List Nat),
        Reachable s' → s'.phase = WorkerPhase.idle → s'.running = true →
        s'.fifo = x :: rest →
        (stepWorker s').fifo = rest ∧
        (stepWorker s').phase = WorkerPhase.runBody x ∧
        statusAt (stepWorker s') x = some TaskStatus.running) := by
  intro s tid t msg hs hph hlook hfn
  have hset : (s.tasks.set tid (markRetrying t msg))[tid]? = some (markRetrying t msg) :=
    List.getElem?_set_self (lt_of_lookup hlook)
  refine ⟨?_, ?_, rfl, rfl, ?_⟩
  · by_cases hlt : t.retry_count + 1 < t.max_retries
    · right
      have h1 : stepWorker s =
          { s with tasks := s.tasks.set tid (markRetrying t msg),
                   phase := WorkerPhase.sleeping tid } := by
        simp only [stepWorker, hph, hlook, hfn, if_pos hlt]
      refine ⟨by rw [h1], ?_⟩
      rw [h1]
      simp only [stepWorker, hset]
    · left
      have h1 : stepWorker s =
          { s with tasks := s.tasks.set tid (markFailed t msg s.clock),
                   phase := WorkerPhase.idle } := by
        simp only [stepWorker, hph, hlook, hfn, if_neg hlt]
      rw [h1]
  · by_cases hlt : t.retry_count + 1 < t.max_retries
    · simp only [stepWorker, hph, hlook, hfn, if_pos hlt]
    · simp only [stepWorker, hph, hlook, hfn, if_neg hlt]
  · intro s' x rest hs' hph' hr' hfi'
    rcases (inv_reachable s' hs').fifoStatus x (hfi' ▸ List.mem_cons_self _ _)
      with ⟨u, hu, _⟩
    have h2 : stepWorker s' =
        { s' with tasks := s'.tasks.set x (markRunning u s'.clock),
                  fifo := rest, phase := WorkerPhase.runBody x } := by
      simp [stepWorker, hph', hr', hfi', hu]
    refine ⟨by rw [h2], by rw [h2], ?_⟩
    rw [h2]
    dsimp only [statusAt]
    rw [List.getElem?_set_self (lt_of_lookup hu)]
    simp [markRunning]

/-- C7 witness: the theorem applied to the reachable state
`failScenario "m" 2 1`, whose current attempt of task 0 fails. -/
theorem C7_witness :
    (stepWorker (failScenario "m" 2 1)).running = (failScenario "m" 2 1).running :=
  (C7_worker_survives_failures (failScenario "m" 2 1) 0 wRunTask "m"
    (reachable_runEvents initState Reachable.init _) rfl rfl rfl).2.1

/-- C8 (confirmed): `get_task_status` is a pure read.  It returns `none`
(not some empty or default record) exactly for identifiers outside the
table — and in this model the identifiers ever returned by `add_task` are
exactly `0, ..., tasks.length - 1`, as the last conjunct shows `add_task`
hands out the table length and grows the table by one — while for every
stored task it returns the snapshot projection of that record. -/
theorem C8_get_status_unknown_or_snapshot :
    ∀ (s : ManagerState) (tid : Nat),
      (QueueManager.get_task_status s tid = none ↔ s.tasks.length ≤ tid) ∧
      (∀ t : QueueTask, s.tasks[tid]? = some t →
        QueueManager.get_task_status s tid = some (QueueManager.snapshotOf t)) ∧
      (∀ (name : String) (func : Nat → Except String Nat) (mr rd : Nat),
        (QueueManager.add_task s name func mr rd).2 = s.tasks.length ∧
        ((QueueManager.add_task s name func mr rd).1).tasks.length =
          s.tasks.length + 1) := by
  intro s tid
  refine ⟨?_, ?_, ?_⟩
  · unfold QueueManager.get_task_status
    rw [Option.map_eq_none']
    exact List.getElem?_eq_none_iff
  · intro t ht
    unfold QueueManager.get_task_status
    rw [ht]
    rfl
  · intro name func mr rd
    refine ⟨rfl, ?_⟩
    show (s.tasks ++ [_]).length = s.tasks.length + 1
    simp

/-- C8 witness: the theorem applied to the state `failScenario "m" 2 0`
and its known identifier 0, yielding the snapshot of the pending task. -/
theorem C8_witness :
    QueueManager.get_task_status (failScenario "m" 2 0) 0 =
      some (QueueManager.snapshotOf wPendTask) :=
  (C8_get_status_unknown_or_snapshot (failScenario "m" 2 0) 0).2.1 wPendTask rfl
